import Mathlib

/-!
Shallow embedding of the pixel-page-count analytics service
(src/src/main.rs) and proofs about its persistence/aggregation core.

The store is a SQLite table `pageviews (domain, page, date, view_count)`
with primary key (domain, page, date).  We model it as a list of rows;
the operations below are direct translations of the SQL statements and
Rust handler code.  Wall-clock time (`OffsetDateTime::now_utc().date()`)
is passed in as an explicit `today` string, and the fallibility of
`Connection::execute` is passed in as an explicit `dbOk` flag.
-/

namespace PixelPageCount

/-- One row of the aggregated `pageviews` table (main.rs lines 53-59):
domain TEXT, page TEXT, date TEXT, view_count INTEGER. -/
structure Row where
  domain : String
  page : String
  date : String
  view_count : Int
deriving DecidableEq, Repr

/-- The aggregated table contents, in rowid order. -/
abbrev Store := List Row

/-- One row of the legacy event table: ts INTEGER (unix seconds),
domain TEXT, page TEXT (spec section 3, "Legacy PageviewEvent"). -/
structure Event where
  ts : Int
  domain : String
  page : String
deriving DecidableEq, Repr

/-- Query parameters of both handlers (main.rs lines 101-105):
`domain` and `page` are each optional. -/
structure Params where
  domain : Option String
  page : Option String
deriving DecidableEq, Repr

/-- An HTTP response as far as the handlers determine it:
a content-type header and a body given as a byte list. -/
structure HttpResponse where
  contentType : String
  body : List Nat
deriving DecidableEq, Repr

/-- Sentinel stored when the `domain` query parameter is absent
(main.rs line 111). -/
def unknownDomain : String := "unknown"

/-- Sentinel stored when the `page` query parameter is absent
(main.rs line 112). -/
def unknownPage : String := "/unknown"

/-- Content type of the tracking-pixel response (main.rs line 124). -/
def gifContentType : String := "image/gif"

/-- The bytes of the fixed 1x1 transparent GIF, PIXEL_GIF
(main.rs lines 11-15), transcribed byte by byte. -/
def pixelGif : List Nat :=
  [71, 73, 70, 56, 57, 97,
   1, 0, 1, 0, 128, 0, 0,
   0, 0, 0, 255, 255, 255, 33, 249, 4, 1, 0, 0,
   0, 0, 44, 0, 0, 0, 0, 1, 0, 1, 0,
   0, 2, 2, 68, 1, 0, 59]

/-- Does row `r` have key (d, p, t)?  This is the ON CONFLICT /
PRIMARY KEY comparison: exact string equality on all three parts. -/
def keyMatch (d p t : String) (r : Row) : Bool :=
  r.domain == d && r.page == p && r.date == t

/-- Number of rows of the store carrying key (d, p, t). -/
def countKey (d p t : String) (s : Store) : Nat :=
  (s.filter (keyMatch d p t)).length

/-- Sum of view_count over the rows carrying key (d, p, t). -/
def keyTotal (d p t : String) (s : Store) : Int :=
  ((s.filter (keyMatch d p t)).map Row.view_count).sum

/-- The INSERT ... ON CONFLICT (domain, page, date) DO UPDATE SET
view_count = view_count + 1 statement (main.rs lines 117-121): if a row
with the key exists it is incremented in place, otherwise a fresh row
with view_count = 1 is appended. -/
def upsert (d p t : String) : Store → Store
  | [] => [{ domain := d, page := p, date := t, view_count := 1 }]
  | r :: rs =>
    if keyMatch d p t r then
      { r with view_count := r.view_count + 1 } :: rs
    else
      r :: upsert d p t rs

/-- The `count_page_view` handler (main.rs lines 107-127).  `dbOk` says
whether `db.execute` succeeds; its Result is discarded (`let _ = ...`),
so the response does not depend on it.  `today` stands for the current
UTC date string. -/
def count_page_view (dbOk : Bool) (pr : Params) (today : String) (s : Store) :
    Store × HttpResponse :=
  let domain := pr.domain.getD unknownDomain
  let page := pr.page.getD unknownPage
  let s2 := if dbOk then upsert domain page today s else s
  (s2, { contentType := gifContentType, body := pixelGif })

/-- n sequential `count_page_view` calls with the same parameters and
the same date. -/
def recordN (n : Nat) (dbOk : Bool) (pr : Params) (today : String) (s : Store) :
    Store :=
  match n with
  | 0 => s
  | m + 1 => (count_page_view dbOk pr today (recordN m dbOk pr today s)).1

/-! ## The export handler (main.rs lines 129-185)

The handler runs one of two SELECTs (with or without a WHERE domain = ?
restriction, both ORDER BY date DESC), then loops over the result rows,
accumulating the row list, the set of distinct pages and the running
view total, and finally assembles the summary object. -/

/-- Content type of the stats response (main.rs line 182). -/
def jsonContentType : String := "application/json"

/-- The summary object (main.rs lines 170-174). -/
structure Summary where
  unique_pages : Nat
  total_views : Int
  total_records : Nat
deriving DecidableEq, Repr

/-- The export result: summary plus ordered row list
(main.rs lines 176-179). -/
structure ExportResult where
  summary : Summary
  pageviews : List Row
deriving DecidableEq, Repr

/-- The ORDER BY date DESC comparison: `a` may come before `b` when
`b`'s date is at most `a`'s (dates are TEXT, compared as strings). -/
def dateGe (a b : Row) : Prop := b.date ≤ a.date

instance : DecidableRel dateGe := fun a b =>
  inferInstanceAs (Decidable (b.date ≤ a.date))

instance : IsTotal Row dateGe := ⟨fun a b => le_total b.date a.date⟩

instance : IsTrans Row dateGe := ⟨fun _ _ _ hab hbc => le_trans hbc hab⟩

/-- Row selection of the export handler (main.rs lines 137-141): the
WHERE domain = ? restriction when a filter domain is given, then
ORDER BY date DESC. -/
def selectRows (filterDomain : Option String) (s : Store) : List Row :=
  let filtered :=
    match filterDomain with
    | some d => s.filter (fun r => r.domain == d)
    | none => s
  List.insertionSort dateGe filtered

/-- The accumulation loop of the export handler (main.rs lines 153-168):
builds the pageview list, the distinct-page set (a HashSet in the
source, here a duplicate-free list) and the running view total. -/
def exportLoop : List Row → List Row → List String → Int →
    List Row × List String × Int
  | [], pvs, pages, tv => (pvs, pages, tv)
  | r :: rs, pvs, pages, tv =>
    exportLoop rs (pvs ++ [r])
      (if r.page ∈ pages then pages else r.page :: pages)
      (tv + r.view_count)

/-- The `export` handler (main.rs lines 129-185); named `exportStats`
because `export` is reserved in Lean.  Selects and orders the rows, runs
the accumulation loop and assembles summary and row list. -/
def exportStats (filterDomain : Option String) (s : Store) : ExportResult :=
  let rows := selectRows filterDomain s
  let acc := exportLoop rows [] [] 0
  { summary :=
      { unique_pages := acc.2.1.length
        total_views := acc.2.2
        total_records := acc.1.length }
    pageviews := acc.1 }

/-- The export handler as a state transformer: it only reads the store
(a SELECT and row iteration), so the store component is returned
unchanged. -/
def exportOp (filterDomain : Option String) (s : Store) :
    Store × ExportResult :=
  (s, exportStats filterDomain s)

/-! ## Schema detection and migration (main.rs lines 22-99) -/

/-- The column signature whose presence in the stored CREATE text marks
the legacy event-log schema (main.rs line 43). -/
def legacyMarker : String := "ts INTEGER"

/-- The CREATE text of the aggregated table as stored in sqlite_master
(main.rs lines 53-59), with the source's line breaks flattened to
spaces (immaterial to the substring check). -/
def aggregatedCreateSql : String :=
  "CREATE TABLE pageviews (domain TEXT NOT NULL, page TEXT NOT NULL, date TEXT NOT NULL, view_count INTEGER NOT NULL DEFAULT 1, PRIMARY KEY (domain, page, date))"

/-- Modelled from the spec: the CREATE text of the legacy event table is
not in src/ (the old recording path is superseded); per spec section 3
it has a `ts` INTEGER timestamp column plus domain and page, and per
section 4.1 its column signature is the legacy marker. -/
def legacyCreateSql : String :=
  "CREATE TABLE pageviews (ts INTEGER NOT NULL, domain TEXT NOT NULL, page TEXT NOT NULL)"

/-- Is `pat` a prefix of the character list `l`? -/
def startsWith : List Char → List Char → Bool
  | [], _ => true
  | _ :: _, [] => false
  | a :: as, b :: bs => a == b && startsWith as bs

/-- Does `pat` occur inside `l`?  (Rust `str::contains` with a literal
pattern.) -/
def listHasSub (pat : List Char) : List Char → Bool
  | [] => startsWith pat []
  | c :: cs => startsWith pat (c :: cs) || listHasSub pat cs

/-- Substring containment on strings, Rust `String::contains`
(main.rs line 43). -/
def containsSubstring (s pat : String) : Bool :=
  listHasSub pat.data s.data

/-- The database state seen at startup: no `pageviews` table yet, the
legacy event table, or the aggregated table. -/
inductive DbState where
  | noTable : DbState
  | legacyTable (events : List Event) : DbState
  | aggTable (rows : Store) : DbState
deriving DecidableEq, Repr

/-- The sqlite_master lookup of the stored CREATE text for `pageviews`
(main.rs lines 35-43): none when the table does not exist. -/
def tableSql : DbState → Option String
  | .noTable => none
  | .legacyTable _ => some legacyCreateSql
  | .aggTable _ => some aggregatedCreateSql

/-- The `needs_migration` check (main.rs lines 35-43): the table exists
and its stored CREATE text contains the legacy marker. -/
def needsMigration (db : DbState) : Bool :=
  match tableSql db with
  | none => false
  | some sql => containsSubstring sql legacyMarker

/-- The legacy events read back during migration (the SELECT ... FROM
pageviews_old, main.rs lines 63-69). -/
def legacyEventsOf : DbState → List Event
  | .legacyTable evs => evs
  | _ => []

/-! ### The day-truncating date function

SQLite's `date(ts, 'unixepoch')` (main.rs line 65) turns a unix
timestamp into a `YYYY-MM-DD` string for the UTC day containing it.  We
implement it with the standard civil-from-days conversion. -/

/-- A string of `n` zeros, used for zero padding. -/
def zeroPad : Nat → String
  | 0 => ""
  | n + 1 => "0" ++ zeroPad n

/-- `n` printed in decimal, left-padded with zeros to `width` digits. -/
def padNum (width : Nat) (n : Int) : String :=
  let s := toString n
  zeroPad (width - s.length) ++ s

/-- Civil (proleptic Gregorian) date from a count of days since
1970-01-01, as (year, month, day). -/
def civilFromDays (z0 : Int) : Int × Int × Int :=
  let z := z0 + 719468
  let era := (if 0 ≤ z then z else z - 146096) / 146097
  let doe := z - era * 146097
  let yoe := (doe - doe / 1460 + doe / 36524 - doe / 146096) / 365
  let y := yoe + era * 400
  let doy := doe - (365 * yoe + yoe / 4 - yoe / 100)
  let mp := (5 * doy + 2) / 153
  let d := doy - (153 * mp + 2) / 5 + 1
  let m := if mp < 10 then mp + 3 else mp - 9
  (if m ≤ 2 then y + 1 else y, m, d)

/-- `date(ts, 'unixepoch')`: the `YYYY-MM-DD` string of the UTC day
containing unix timestamp `ts` (floor division by 86400 seconds). -/
def tsDate (ts : Int) : String :=
  let ymd := civilFromDays (Int.fdiv ts 86400)
  padNum 4 ymd.1 ++ "-" ++ padNum 2 ymd.2.1 ++ "-" ++ padNum 2 ymd.2.2

/-- The GROUP BY key of the migration query (main.rs line 67):
(domain, page, date(ts, 'unixepoch')). -/
def eventKey (e : Event) : String × String × String :=
  (e.domain, e.page, tsDate e.ts)

/-- Number of legacy events in the group with key (d, p, dt); the
COUNT(*) of the migration query (main.rs line 65). -/
def groupSize (evs : List Event) (d p dt : String) : Nat :=
  (evs.filter (fun e => eventKey e == (d, p, dt))).length

/-- The migration INSERT ... SELECT ... GROUP BY (main.rs lines 63-69):
one aggregated row per distinct grouping key, with view_count the size
of the group. -/
def migrate (evs : List Event) : Store :=
  (evs.map eventKey).dedup.map fun k =>
    { domain := k.1, page := k.2.1, date := k.2.2,
      view_count := ((evs.filter (fun e => eventKey e == k)).length : Int) }

/-- Startup schema handling (main.rs lines 34-86): if the legacy marker
is detected, rename / create / aggregate-copy / drop, leaving the
aggregated table populated from the legacy events; otherwise CREATE
TABLE IF NOT EXISTS, which creates an empty aggregated table only when
none exists. -/
def ensureSchema (db : DbState) : DbState :=
  if needsMigration db then
    .aggTable (migrate (legacyEventsOf db))
  else
    match db with
    | .noTable => .aggTable []
    | other => other

/-- The aggregated rows of a database state (empty when the aggregated
table does not exist). -/
def storeOf : DbState → Store
  | .aggTable rows => rows
  | _ => []

/-- Does the state still carry the legacy event-log table? -/
def isLegacy : DbState → Bool
  | .legacyTable _ => true
  | _ => false

/-! ## Store invariants and reachability -/

/-- Key uniqueness: at most one row per (domain, page, date), the
PRIMARY KEY constraint. -/
def KeyUnique (s : Store) : Prop :=
  ∀ d p t, countKey d p t s ≤ 1

/-- Every row's view_count is at least 1. -/
def CountsPos (s : Store) : Prop :=
  ∀ r ∈ s, 1 ≤ r.view_count

/-- Store states reachable through the program's operations: a fresh
start, a start over a legacy table, a restart over a previously built
aggregated table, a `count_page_view` call (succeeding or failing), or
an export. -/
inductive Reachable : Store → Prop where
  | fresh : Reachable (storeOf (ensureSchema .noTable))
  | migrated (evs : List Event) :
      Reachable (storeOf (ensureSchema (.legacyTable evs)))
  | restart {s : Store} : Reachable s →
      Reachable (storeOf (ensureSchema (.aggTable s)))
  | record (ok : Bool) (pr : Params) (t : String) {s : Store} :
      Reachable s → Reachable (count_page_view ok pr t s).1
  | exported (f : Option String) {s : Store} :
      Reachable s → Reachable (exportOp f s).1

/-- The fixed response of the tracking endpoint (main.rs lines 123-126). -/
def pixelResponse : HttpResponse :=
  { contentType := gifContentType, body := pixelGif }

/-! ## Helper lemmas -/

theorem keyMatch_iff {d p t : String} {r : Row} :
    keyMatch d p t r = true ↔ r.domain = d ∧ r.page = p ∧ r.date = t := by
  simp [keyMatch, and_assoc]

theorem keyMatch_update (d p t : String) (r : Row) (vc : Int) :
    keyMatch d p t { r with view_count := vc } = keyMatch d p t r := rfl

theorem countKey_cons_pos {d p t : String} {r : Row} (h : keyMatch d p t r = true)
    (rs : Store) : countKey d p t (r :: rs) = countKey d p t rs + 1 := by
  simp [countKey, List.filter_cons, h]

theorem countKey_cons_neg {d p t : String} {r : Row} (h : keyMatch d p t r = false)
    (rs : Store) : countKey d p t (r :: rs) = countKey d p t rs := by
  simp [countKey, List.filter_cons, h]

theorem keyTotal_cons_pos {d p t : String} {r : Row} (h : keyMatch d p t r = true)
    (rs : Store) : keyTotal d p t (r :: rs) = r.view_count + keyTotal d p t rs := by
  simp [keyTotal, List.filter_cons, h]

theorem keyTotal_cons_neg {d p t : String} {r : Row} (h : keyMatch d p t r = false)
    (rs : Store) : keyTotal d p t (r :: rs) = keyTotal d p t rs := by
  simp [keyTotal, List.filter_cons, h]

theorem keyMatch_fresh (d p t : String) :
    keyMatch d p t { domain := d, page := p, date := t, view_count := 1 } = true := by
  simp [keyMatch]

theorem keyMatch_fresh_ne {d p t d' p' t' : String}
    (h : ¬(d' = d ∧ p' = p ∧ t' = t)) :
    keyMatch d p t { domain := d', page := p', date := t', view_count := 1 } = false := by
  apply Bool.eq_false_iff.mpr
  intro hT
  exact h (by simpa [keyMatch, and_assoc] using hT)

theorem countKey_upsert_self (d p t : String) (s : Store) :
    countKey d p t (upsert d p t s) =
      if countKey d p t s = 0 then 1 else countKey d p t s := by
  induction s with
  | nil =>
    simp [upsert, countKey, List.filter_cons, keyMatch_fresh]
  | cons r rs ih =>
    by_cases hk : keyMatch d p t r
    · rw [upsert, if_pos hk]
      have hk2 : keyMatch d p t { r with view_count := r.view_count + 1 } = true := by
        rw [keyMatch_update]; exact hk
      rw [countKey_cons_pos hk2, countKey_cons_pos hk]
      simp
    · have hk' : keyMatch d p t r = false := by
        exact Bool.eq_false_iff.mpr hk
      rw [upsert, if_neg hk, countKey_cons_neg hk', countKey_cons_neg hk']
      exact ih

theorem countKey_upsert_other (d p t d' p' t' : String) (s : Store)
    (h : ¬(d' = d ∧ p' = p ∧ t' = t)) :
    countKey d p t (upsert d' p' t' s) = countKey d p t s := by
  induction s with
  | nil =>
    rw [show upsert d' p' t' [] =
        [{ domain := d', page := p', date := t', view_count := 1 }] from rfl]
    rw [countKey_cons_neg (keyMatch_fresh_ne h)]
  | cons r rs ih =>
    by_cases hk : keyMatch d' p' t' r
    · rw [upsert, if_pos hk]
      by_cases hq : keyMatch d p t r
      · have hq2 : keyMatch d p t { r with view_count := r.view_count + 1 } = true := by
          rw [keyMatch_update]; exact hq
        rw [countKey_cons_pos hq2, countKey_cons_pos hq]
      · have hq' : keyMatch d p t r = false := Bool.eq_false_iff.mpr hq
        have hq2 : keyMatch d p t { r with view_count := r.view_count + 1 } = false := by
          rw [keyMatch_update]; exact hq'
        rw [countKey_cons_neg hq2, countKey_cons_neg hq']
    · rw [upsert, if_neg hk]
      by_cases hq : keyMatch d p t r
      · rw [countKey_cons_pos hq, countKey_cons_pos hq, ih]
      · have hq' : keyMatch d p t r = false := Bool.eq_false_iff.mpr hq
        rw [countKey_cons_neg hq', countKey_cons_neg hq', ih]

theorem keyTotal_upsert_self (d p t : String) (s : Store) :
    keyTotal d p t (upsert d p t s) = keyTotal d p t s + 1 := by
  induction s with
  | nil =>
    simp [upsert, keyTotal, List.filter_cons, keyMatch_fresh]
  | cons r rs ih =>
    by_cases hk : keyMatch d p t r
    · rw [upsert, if_pos hk]
      have hk2 : keyMatch d p t { r with view_count := r.view_count + 1 } = true := by
        rw [keyMatch_update]; exact hk
      rw [keyTotal_cons_pos hk2, keyTotal_cons_pos hk]
      show r.view_count + 1 + keyTotal d p t rs = r.view_count + keyTotal d p t rs + 1
      ring
    · have hk' : keyMatch d p t r = false := Bool.eq_false_iff.mpr hk
      rw [upsert, if_neg hk, keyTotal_cons_neg hk', keyTotal_cons_neg hk']
      exact ih

theorem keyTotal_upsert_other (d p t d' p' t' : String) (s : Store)
    (h : ¬(d' = d ∧ p' = p ∧ t' = t)) :
    keyTotal d p t (upsert d' p' t' s) = keyTotal d p t s := by
  induction s with
  | nil =>
    rw [show upsert d' p' t' [] =
        [{ domain := d', page := p', date := t', view_count := 1 }] from rfl]
    rw [keyTotal_cons_neg (keyMatch_fresh_ne h)]
  | cons r rs ih =>
    by_cases hk : keyMatch d' p' t' r
    · rw [upsert, if_pos hk]
      by_cases hq : keyMatch d p t r
      · have hq2 : keyMatch d p t { r with view_count := r.view_count + 1 } = true := by
          rw [keyMatch_update]; exact hq
        rw [keyTotal_cons_pos hq2, keyTotal_cons_pos hq]
        -- the incremented row matches both keys: impossible when the keys differ
        exfalso
        rcases keyMatch_iff.mp hq with ⟨h1, h2, h3⟩
        rcases keyMatch_iff.mp hk with ⟨g1, g2, g3⟩
        exact h ⟨g1.symm.trans h1, g2.symm.trans h2, g3.symm.trans h3⟩
      · have hq' : keyMatch d p t r = false := Bool.eq_false_iff.mpr hq
        have hq2 : keyMatch d p t { r with view_count := r.view_count + 1 } = false := by
          rw [keyMatch_update]; exact hq'
        rw [keyTotal_cons_neg hq2, keyTotal_cons_neg hq']
    · rw [upsert, if_neg hk]
      by_cases hq : keyMatch d p t r
      · rw [keyTotal_cons_pos hq, keyTotal_cons_pos hq, ih]
      · have hq' : keyMatch d p t r = false := Bool.eq_false_iff.mpr hq
        rw [keyTotal_cons_neg hq', keyTotal_cons_neg hq', ih]

theorem filter_not_upsert (d p t : String) (s : Store) :
    (upsert d p t s).filter (fun r => !(keyMatch d p t r)) =
      s.filter (fun r => !(keyMatch d p t r)) := by
  induction s with
  | nil => simp [upsert, List.filter_cons, keyMatch_fresh]
  | cons r rs ih =>
    by_cases hk : keyMatch d p t r
    · rw [upsert, if_pos hk]
      have hk2 : keyMatch d p t { r with view_count := r.view_count + 1 } = true := by
        rw [keyMatch_update]; exact hk
      simp [List.filter_cons, hk, hk2]
    · have hk' : keyMatch d p t r = false := Bool.eq_false_iff.mpr hk
      rw [upsert, if_neg hk]
      simp [List.filter_cons, hk', ih]

theorem upsert_countsPos (d p t : String) :
    ∀ s : Store, CountsPos s → CountsPos (upsert d p t s) := by
  intro s
  induction s with
  | nil =>
    intro _ x hx
    rw [show upsert d p t [] =
        [{ domain := d, page := p, date := t, view_count := 1 }] from rfl] at hx
    rcases List.mem_cons.mp hx with h1 | h2
    · subst h1; exact le_refl 1
    · cases h2
  | cons r rs ih =>
    intro h x hx
    by_cases hk : keyMatch d p t r
    · rw [upsert, if_pos hk] at hx
      rcases List.mem_cons.mp hx with h1 | h2
      · subst h1
        have hr : 1 ≤ r.view_count := h r (List.mem_cons_self r rs)
        show 1 ≤ r.view_count + 1
        omega
      · exact h x (List.mem_cons_of_mem r h2)
    · rw [upsert, if_neg hk] at hx
      rcases List.mem_cons.mp hx with h1 | h2
      · subst h1; exact h x (List.mem_cons_self x rs)
      · exact ih (fun y hy => h y (List.mem_cons_of_mem r hy)) x h2

theorem upsert_keyUnique {s : Store} (h : KeyUnique s) (d p t : String) :
    KeyUnique (upsert d p t s) := by
  intro d0 p0 t0
  by_cases hEq : d = d0 ∧ p = p0 ∧ t = t0
  · rcases hEq with ⟨h1, h2, h3⟩
    subst h1; subst h2; subst h3
    rw [countKey_upsert_self]
    by_cases h0 : countKey d p t s = 0
    · rw [if_pos h0]
    · rw [if_neg h0]; exact h d p t
  · rw [countKey_upsert_other _ _ _ _ _ _ _ hEq]
    exact h d0 p0 t0

/-! ### Export loop lemmas -/

theorem exportLoop_pvs (rows : List Row) :
    ∀ pvs pages tv, (exportLoop rows pvs pages tv).1 = pvs ++ rows := by
  induction rows with
  | nil => intro pvs pages tv; simp [exportLoop]
  | cons r rs ih =>
    intro pvs pages tv
    rw [exportLoop, ih]
    simp

theorem exportLoop_total (rows : List Row) :
    ∀ pvs pages tv, (exportLoop rows pvs pages tv).2.2 =
      tv + (rows.map Row.view_count).sum := by
  induction rows with
  | nil => intro pvs pages tv; simp [exportLoop]
  | cons r rs ih =>
    intro pvs pages tv
    rw [exportLoop, ih]
    simp
    ring

theorem exportLoop_pages_mem (rows : List Row) :
    ∀ pvs pages tv (x : String), x ∈ (exportLoop rows pvs pages tv).2.1 ↔
      x ∈ pages ∨ x ∈ rows.map Row.page := by
  induction rows with
  | nil => intro pvs pages tv x; simp [exportLoop]
  | cons r rs ih =>
    intro pvs pages tv x
    rw [exportLoop, ih]
    by_cases hm : r.page ∈ pages
    · rw [if_pos hm]
      simp only [List.map_cons, List.mem_cons]
      constructor
      · rintro (h1 | h2)
        · exact Or.inl h1
        · exact Or.inr (Or.inr h2)
      · rintro (h1 | h2 | h3)
        · exact Or.inl h1
        · subst h2; exact Or.inl hm
        · exact Or.inr h3
    · rw [if_neg hm]
      simp only [List.map_cons, List.mem_cons]
      constructor
      · rintro ((hx | hx) | h2)
        · exact Or.inr (Or.inl hx)
        · exact Or.inl hx
        · exact Or.inr (Or.inr h2)
      · rintro (h1 | h2 | h3)
        · exact Or.inl (Or.inr h1)
        · exact Or.inl (Or.inl h2)
        · exact Or.inr h3

theorem exportLoop_pages_nodup (rows : List Row) :
    ∀ pvs pages tv, pages.Nodup → (exportLoop rows pvs pages tv).2.1.Nodup := by
  induction rows with
  | nil => intro pvs pages tv h; simpa [exportLoop] using h
  | cons r rs ih =>
    intro pvs pages tv h
    rw [exportLoop]
    by_cases hm : r.page ∈ pages
    · rw [if_pos hm]; exact ih _ _ _ h
    · rw [if_neg hm]; exact ih _ _ _ (List.nodup_cons.mpr ⟨hm, h⟩)

/-! ### Migration lemmas -/

theorem keyMatch_migrateRow (d p dt : String) (k : String × String × String)
    (vc : Int) :
    keyMatch d p dt { domain := k.1, page := k.2.1, date := k.2.2,
                      view_count := vc } = (k == (d, p, dt)) := by
  rcases k with ⟨a, b, c⟩
  apply Bool.eq_iff_iff.mpr
  simp [keyMatch, Prod.ext_iff, and_assoc]

theorem filter_beq_of_nodup {α : Type} [BEq α] [LawfulBEq α] :
    ∀ l : List α, l.Nodup → ∀ x ∈ l, l.filter (fun k => k == x) = [x] := by
  intro l
  induction l with
  | nil => intro _ x hx; cases hx
  | cons a as ih =>
    intro h x hx
    rcases List.nodup_cons.mp h with ⟨ha, has⟩
    rcases List.mem_cons.mp hx with h1 | h2
    · subst h1
      rw [List.filter_cons]
      simp only [beq_self_eq_true, if_pos]
      have : as.filter (fun k => k == x) = [] := by
        rw [List.filter_eq_nil_iff]
        intro k hk hbeq
        exact ha (beq_iff_eq.mp hbeq ▸ hk)
      rw [this]
    · rw [List.filter_cons]
      have hax : (a == x) = false := by
        apply Bool.eq_false_iff.mpr
        intro hbeq
        exact ha (beq_iff_eq.mp hbeq ▸ h2)
      rw [hax]
      simpa using ih has x h2

theorem filter_beq_dedup {α : Type} [DecidableEq α] [BEq α] [LawfulBEq α]
    (l : List α) (x : α) :
    l.dedup.filter (fun k => k == x) = if x ∈ l then [x] else [] := by
  by_cases h : x ∈ l
  · rw [if_pos h]
    exact filter_beq_of_nodup l.dedup (List.nodup_dedup l) x (List.mem_dedup.mpr h)
  · rw [if_neg h, List.filter_eq_nil_iff]
    intro k hk hbeq
    exact h (beq_iff_eq.mp hbeq ▸ List.mem_dedup.mp hk)

theorem groupSize_pos_iff (evs : List Event) (d p dt : String) :
    (d, p, dt) ∈ evs.map eventKey ↔ groupSize evs d p dt ≠ 0 := by
  rw [groupSize]
  constructor
  · intro h
    rcases List.mem_map.mp h with ⟨e, he, hk⟩
    intro hlen
    rw [List.length_eq_zero, List.filter_eq_nil_iff] at hlen
    exact hlen e he (by simp [hk])
  · intro h
    have : evs.filter (fun e => eventKey e == (d, p, dt)) ≠ [] := by
      intro hnil
      exact h (by rw [hnil]; rfl)
    rcases List.exists_mem_of_ne_nil _ this with ⟨e, he⟩
    rcases List.mem_filter.mp he with ⟨hmem, hbeq⟩
    exact List.mem_map.mpr ⟨e, hmem, beq_iff_eq.mp hbeq⟩

theorem migrate_filter (evs : List Event) (d p dt : String) :
    (migrate evs).filter (keyMatch d p dt) =
      if (d, p, dt) ∈ evs.map eventKey
      then [{ domain := d, page := p, date := dt,
              view_count := (groupSize evs d p dt : Int) }]
      else [] := by
  rw [migrate, List.filter_map]
  have hcomp : (keyMatch d p dt ∘ fun k : String × String × String =>
      ({ domain := k.1, page := k.2.1, date := k.2.2,
         view_count := ((evs.filter (fun e => eventKey e == k)).length : Int) } : Row)) =
      fun k => k == (d, p, dt) := by
    funext k
    exact keyMatch_migrateRow d p dt k _
  rw [hcomp, filter_beq_dedup]
  by_cases h : (d, p, dt) ∈ evs.map eventKey
  · rw [if_pos h, if_pos h]
    rfl
  · rw [if_neg h, if_neg h]
    rfl

theorem migrate_countKey (evs : List Event) (d p dt : String) :
    countKey d p dt (migrate evs) =
      if groupSize evs d p dt = 0 then 0 else 1 := by
  rw [countKey, migrate_filter]
  by_cases h : (d, p, dt) ∈ evs.map eventKey
  · have hgs := (groupSize_pos_iff evs d p dt).mp h
    rw [if_pos h, if_neg hgs]
    rfl
  · have hgs : groupSize evs d p dt = 0 := by
      by_contra hc
      exact h ((groupSize_pos_iff evs d p dt).mpr hc)
    rw [if_neg h, if_pos hgs]
    rfl

theorem migrate_keyTotal (evs : List Event) (d p dt : String) :
    keyTotal d p dt (migrate evs) = (groupSize evs d p dt : Int) := by
  rw [keyTotal, migrate_filter]
  by_cases h : (d, p, dt) ∈ evs.map eventKey
  · rw [if_pos h]
    simp
  · have hgs : groupSize evs d p dt = 0 := by
      by_contra hc
      exact h ((groupSize_pos_iff evs d p dt).mpr hc)
    rw [if_neg h, hgs]
    rfl

theorem migrate_keyUnique (evs : List Event) : KeyUnique (migrate evs) := by
  intro d p t
  rw [migrate_countKey]
  by_cases h : groupSize evs d p t = 0
  · rw [if_pos h]; exact Nat.zero_le 1
  · rw [if_neg h]

theorem migrate_countsPos (evs : List Event) : CountsPos (migrate evs) := by
  intro r hr
  rw [migrate] at hr
  rcases List.mem_map.mp hr with ⟨k, hk, hf⟩
  have hkm : k ∈ evs.map eventKey := List.mem_dedup.mp hk
  rcases List.mem_map.mp hkm with ⟨e, he, hek⟩
  have : e ∈ evs.filter (fun e => eventKey e == k) :=
    List.mem_filter.mpr ⟨he, by simp [hek]⟩
  have hlen : 1 ≤ (evs.filter (fun e => eventKey e == k)).length :=
    List.length_pos.mpr (List.ne_nil_of_mem this)
  rw [← hf]
  show (1 : Int) ≤ ((evs.filter (fun e => eventKey e == k)).length : Int)
  exact_mod_cast hlen

/-! ### Schema-handling computation lemmas -/

set_option maxRecDepth 8000 in
theorem marker_in_legacy :
    containsSubstring legacyCreateSql legacyMarker = true := by
  decide

set_option maxRecDepth 8000 in
theorem marker_not_in_aggregated :
    containsSubstring aggregatedCreateSql legacyMarker = false := by
  decide

theorem ensureSchema_noTable : ensureSchema .noTable = .aggTable [] := rfl

theorem ensureSchema_legacy (evs : List Event) :
    ensureSchema (.legacyTable evs) = .aggTable (migrate evs) := by
  have h : needsMigration (.legacyTable evs) = true := marker_in_legacy
  simp [ensureSchema, h, legacyEventsOf]

theorem ensureSchema_agg (rows : Store) :
    ensureSchema (.aggTable rows) = .aggTable rows := by
  have h : needsMigration (.aggTable rows) = false := marker_not_in_aggregated
  simp [ensureSchema, h]

/-! ### Sequential recording lemmas -/

theorem count_page_view_state_ok (pr : Params) (t : String) (s : Store) :
    (count_page_view true pr t s).1 =
      upsert (pr.domain.getD unknownDomain) (pr.page.getD unknownPage) t s := rfl

theorem count_page_view_state_fail (pr : Params) (t : String) (s : Store) :
    (count_page_view false pr t s).1 = s := rfl

theorem recordN_keyTotal (pr : Params) (t : String) (s : Store) (n : Nat) :
    keyTotal (pr.domain.getD unknownDomain) (pr.page.getD unknownPage) t
        (recordN n true pr t s) =
      keyTotal (pr.domain.getD unknownDomain) (pr.page.getD unknownPage) t s + n := by
  induction n with
  | zero => simp [recordN]
  | succ m ih =>
    rw [recordN, count_page_view_state_ok, keyTotal_upsert_self, ih]
    push_cast
    ring

theorem recordN_countKey_fresh (pr : Params) (t : String) (s : Store)
    (h0 : countKey (pr.domain.getD unknownDomain) (pr.page.getD unknownPage) t s = 0) :
    ∀ n : Nat, 1 ≤ n →
      countKey (pr.domain.getD unknownDomain) (pr.page.getD unknownPage) t
        (recordN n true pr t s) = 1 := by
  intro n
  induction n with
  | zero => intro h; cases h
  | succ m ih =>
    intro _
    rw [recordN, count_page_view_state_ok, countKey_upsert_self]
    by_cases hm : m = 0
    · subst hm
      rw [show recordN 0 true pr t s = s from rfl, h0]
      rfl
    · have h1 : 1 ≤ m := Nat.one_le_iff_ne_zero.mpr hm
      rw [ih h1]
      rfl

/-! ## Claim theorems -/

/-- C1: for every domain and page, N sequential RecordView calls with the
same (domain, page) on the same UTC day, starting from a store with no
row for that key, leave exactly one row for that key, with view_count
equal to N; the first call inserts the row with view_count 1 and each
subsequent call increments it by 1. -/
theorem recordView_sequential_counts (pr : Params) (t : String) (s : Store)
    (n : Nat)
    (h0 : countKey (pr.domain.getD unknownDomain) (pr.page.getD unknownPage) t s = 0)
    (h1 : 1 ≤ n) :
    countKey (pr.domain.getD unknownDomain) (pr.page.getD unknownPage) t
        (recordN n true pr t s) = 1 ∧
    keyTotal (pr.domain.getD unknownDomain) (pr.page.getD unknownPage) t
        (recordN n true pr t s) = (n : Int) ∧
    ∀ k : Nat,
      keyTotal (pr.domain.getD unknownDomain) (pr.page.getD unknownPage) t
          (recordN (k + 1) true pr t s) =
        keyTotal (pr.domain.getD unknownDomain) (pr.page.getD unknownPage) t
          (recordN k true pr t s) + 1 := by
  have hTot : keyTotal (pr.domain.getD unknownDomain) (pr.page.getD unknownPage) t s = 0 := by
    rw [keyTotal, countKey] at *
    rw [List.length_eq_zero] at h0
    rw [h0]
    rfl
  refine ⟨recordN_countKey_fresh pr t s h0 n h1, ?_, ?_⟩
  · rw [recordN_keyTotal, hTot, zero_add]
  · intro k
    rw [recordN, count_page_view_state_ok, keyTotal_upsert_self]

/-- C1 witness: three recording calls for (example.com, /home) on one
day starting from the empty store. -/
theorem recordView_sequential_counts_witness :
    countKey ("example.com") ("/home") ("2026-10-12") [] = 0 ∧ 1 ≤ 3 ∧
    countKey ("example.com") ("/home") ("2026-10-12")
      (recordN 3 true { domain := some ("example.com"), page := some ("/home") }
        ("2026-10-12") []) = 1 ∧
    keyTotal ("example.com") ("/home") ("2026-10-12")
      (recordN 3 true { domain := some ("example.com"), page := some ("/home") }
        ("2026-10-12") []) = (3 : Int) := by
  have h := recordView_sequential_counts
    { domain := some ("example.com"), page := some ("/home") }
    ("2026-10-12") [] 3 rfl (by decide)
  exact ⟨rfl, by decide, h.1, h.2.1⟩

/-- C2 counterexample: a RecordView call whose domain input is the empty
string (present but empty) persists the empty string itself, not the
sentinel. -/
theorem recordView_empty_string_not_sentinel :
    (count_page_view true { domain := some (""), page := some ("/x") }
        ("2026-01-01") []).1 =
      [{ domain := "", page := "/x", date := "2026-01-01", view_count := 1 }] ∧
    ("" : String) ≠ unknownDomain := by
  refine ⟨rfl, ?_⟩
  decide

/-- C2 amended: a RecordView call whose domain (resp. page) input is
absent persists the sentinel "unknown" (resp. "/unknown"); every
provided input string, including the empty string, is persisted
verbatim. -/
theorem recordView_sentinels_only_when_absent (pr : Params) (t : String) :
    (count_page_view true pr t []).1 =
      [{ domain := match pr.domain with | none => unknownDomain | some d => d,
         page := match pr.page with | none => unknownPage | some p => p,
         date := t, view_count := 1 }] := by
  rcases pr with ⟨od, op⟩
  cases od <;> cases op <;> rfl

/-- C4: EnsureSchema on a legacy event table leaves the aggregated table
with exactly one row per group of legacy events sharing
(domain, page, day-truncated timestamp), that row carrying view_count
equal to the group size, and the legacy table no longer exists. -/
theorem migration_aggregates_legacy_events (evs : List Event) (d p dt : String) :
    countKey d p dt (storeOf (ensureSchema (.legacyTable evs))) =
      (if groupSize evs d p dt = 0 then 0 else 1) ∧
    keyTotal d p dt (storeOf (ensureSchema (.legacyTable evs))) =
      (groupSize evs d p dt : Int) ∧
    isLegacy (ensureSchema (.legacyTable evs)) = false := by
  rw [ensureSchema_legacy]
  exact ⟨migrate_countKey evs d p dt, migrate_keyTotal evs d p dt, rfl⟩

/-- C5: running EnsureSchema twice in a row makes the second run a
no-op: the second run detects no migration to perform and returns the
state (schema and row data) unchanged. -/
theorem ensureSchema_idempotent (db : DbState) :
    ensureSchema (ensureSchema db) = ensureSchema db ∧
    needsMigration (ensureSchema db) = false := by
  cases db with
  | noTable =>
    rw [ensureSchema_noTable]
    exact ⟨ensureSchema_agg [], marker_not_in_aggregated⟩
  | legacyTable evs =>
    rw [ensureSchema_legacy]
    exact ⟨ensureSchema_agg _, marker_not_in_aggregated⟩
  | aggTable rows =>
    rw [ensureSchema_agg]
    exact ⟨ensureSchema_agg rows, marker_not_in_aggregated⟩

/-- C6: a persistence failure during the insert-or-increment is
swallowed: the handler returns the same fixed 1x1 GIF response with
content type image/gif whether the store operation succeeds or fails,
and on failure the view is silently dropped (store unchanged). -/
theorem recordView_swallows_persistence_failure (ok : Bool) (pr : Params)
    (t : String) (s : Store) :
    (count_page_view ok pr t s).2 = pixelResponse ∧
    pixelResponse.contentType = gifContentType ∧
    (count_page_view false pr t s).1 = s := by
  exact ⟨rfl, rfl, rfl⟩

/-- C10: a RecordView call touches at most the single row keyed by the
resolved (domain, page, current date): the sublist of rows with any
other key is byte-for-byte unchanged; and the export handler modifies
no row at all. -/
theorem recordView_frame_property (ok : Bool) (pr : Params) (t : String)
    (s : Store) (f : Option String) :
    ((count_page_view ok pr t s).1).filter
        (fun r => !(keyMatch (pr.domain.getD unknownDomain)
          (pr.page.getD unknownPage) t r)) =
      s.filter (fun r => !(keyMatch (pr.domain.getD unknownDomain)
          (pr.page.getD unknownPage) t r)) ∧
    (exportOp f s).1 = s := by
  refine ⟨?_, rfl⟩
  cases ok with
  | false => rfl
  | true =>
    rw [count_page_view_state_ok]
    exact filter_not_upsert _ _ _ s

/-- C3: the summary computed by the export handler satisfies:
unique_pages is the number of distinct page values among the returned
rows, total_views is the sum of view_count over the returned rows, and
total_records is the number of returned rows. -/
theorem exportStats_summary_correct (f : Option String) (s : Store) :
    (exportStats f s).summary.unique_pages =
      ((exportStats f s).pageviews.map Row.page).toFinset.card ∧
    (exportStats f s).summary.total_views =
      ((exportStats f s).pageviews.map Row.view_count).sum ∧
    (exportStats f s).summary.total_records =
      (exportStats f s).pageviews.length := by
  have h1 : (exportLoop (selectRows f s) [] [] 0).1 = selectRows f s := by
    rw [exportLoop_pvs]
    simp
  have hpvs : (exportStats f s).pageviews = selectRows f s := h1
  have hnd : (exportLoop (selectRows f s) [] [] 0).2.1.Nodup :=
    exportLoop_pages_nodup _ _ _ _ List.nodup_nil
  have hmem : ∀ x, x ∈ (exportLoop (selectRows f s) [] [] 0).2.1 ↔
      x ∈ (selectRows f s).map Row.page := by
    intro x
    rw [exportLoop_pages_mem]
    simp
  refine ⟨?_, ?_, ?_⟩
  · show (exportLoop (selectRows f s) [] [] 0).2.1.length = _
    rw [hpvs, ← List.toFinset_card_of_nodup hnd]
    congr 1
    apply Finset.ext
    intro x
    simp only [List.mem_toFinset]
    exact hmem x
  · show (exportLoop (selectRows f s) [] [] 0).2.2 = _
    rw [hpvs, exportLoop_total]
    simp
  · show (exportLoop (selectRows f s) [] [] 0).1.length = _
    rw [hpvs, h1]

/-- C7: export with a filter domain returns exactly the stored rows
whose domain equals the filter by exact string comparison (a
permutation of the filtered store, and membership-equivalent to it);
export without a filter returns all stored rows. -/
theorem exportStats_filters_by_domain (s : Store) :
    (∀ d : String,
      ((exportStats (some d) s).pageviews).Perm
          (s.filter (fun r => r.domain == d)) ∧
      ∀ r : Row, r ∈ (exportStats (some d) s).pageviews ↔
        r ∈ s ∧ r.domain = d) ∧
    ((exportStats none s).pageviews).Perm s := by
  have hpvs : ∀ f : Option String,
      (exportStats f s).pageviews = selectRows f s := by
    intro f
    show (exportLoop (selectRows f s) [] [] 0).1 = selectRows f s
    rw [exportLoop_pvs]
    simp
  constructor
  · intro d
    constructor
    · rw [hpvs]
      exact List.perm_insertionSort dateGe _
    · intro r
      rw [hpvs]
      have hsel : selectRows (some d) s =
          List.insertionSort dateGe (s.filter (fun r => r.domain == d)) := rfl
      rw [hsel]
      simp only [List.mem_insertionSort, List.mem_filter, beq_iff_eq]
  · rw [hpvs]
    exact List.perm_insertionSort dateGe s

/-- C8: the row list returned by the export handler is sorted
non-increasing by date (date descending). -/
theorem exportStats_sorted_by_date_desc (f : Option String) (s : Store) :
    List.Sorted dateGe (exportStats f s).pageviews := by
  have hpvs : (exportStats f s).pageviews = selectRows f s := by
    show (exportLoop (selectRows f s) [] [] 0).1 = selectRows f s
    rw [exportLoop_pvs]
    simp
  rw [hpvs]
  cases f with
  | none => exact List.sorted_insertionSort dateGe s
  | some d =>
    exact List.sorted_insertionSort dateGe (s.filter (fun r => r.domain == d))

/-! ### Reachability invariant lemmas -/

theorem keyTotal_record_mono (s : Store) (ok : Bool) (pr : Params)
    (t d p dt : String) :
    keyTotal d p dt s ≤ keyTotal d p dt (count_page_view ok pr t s).1 := by
  cases ok with
  | false => exact le_refl _
  | true =>
    rw [count_page_view_state_ok]
    by_cases hk : pr.domain.getD unknownDomain = d ∧
        pr.page.getD unknownPage = p ∧ t = dt
    · rcases hk with ⟨h1, h2, h3⟩
      rw [h1, h2, h3, keyTotal_upsert_self]
      omega
    · rw [keyTotal_upsert_other _ _ _ _ _ _ _ hk]

theorem reachable_inv (s : Store) (h : Reachable s) :
    KeyUnique s ∧ CountsPos s := by
  induction h with
  | fresh =>
    constructor
    · intro d p t
      exact Nat.zero_le 1
    · intro r hr
      cases hr
  | migrated evs =>
    rw [ensureSchema_legacy]
    exact ⟨migrate_keyUnique evs, migrate_countsPos evs⟩
  | restart _ ih =>
    rw [ensureSchema_agg]
    exact ih
  | record ok pr t _ ih =>
    cases ok with
    | false => exact ih
    | true =>
      rw [count_page_view_state_ok]
      exact ⟨upsert_keyUnique ih.1 _ _ _, upsert_countsPos _ _ _ _ ih.2⟩
  | exported f _ ih => exact ih

/-- C9: in every store state reachable through EnsureSchema, RecordView
and Export, the (domain, page, date) triple is unique across rows,
every row's view_count is at least 1, and the per-key view total never
decreases under any subsequent operation (recording, export, or a
restart's schema check). -/
theorem reachable_store_invariants (s : Store) (h : Reachable s) :
    KeyUnique s ∧ CountsPos s ∧
    (∀ (ok : Bool) (pr : Params) (t d p dt : String),
      keyTotal d p dt s ≤ keyTotal d p dt (count_page_view ok pr t s).1) ∧
    (∀ (f : Option String) (d p dt : String),
      keyTotal d p dt (exportOp f s).1 = keyTotal d p dt s) ∧
    (∀ d p dt : String,
      keyTotal d p dt (storeOf (ensureSchema (.aggTable s))) =
        keyTotal d p dt s) := by
  rcases reachable_inv s h with ⟨hu, hc⟩
  refine ⟨hu, hc, ?_, ?_, ?_⟩
  · intro ok pr t d p dt
    exact keyTotal_record_mono s ok pr t d p dt
  · intro f d p dt
    rfl
  · intro d p dt
    rw [ensureSchema_agg]
    rfl

/-- C9 witness: the empty store after a fresh EnsureSchema. -/
theorem reachable_store_invariants_witness :
    Reachable ([] : Store) ∧
    (KeyUnique ([] : Store) ∧ CountsPos ([] : Store) ∧
    (∀ (ok : Bool) (pr : Params) (t d p dt : String),
      keyTotal d p dt [] ≤ keyTotal d p dt (count_page_view ok pr t []).1) ∧
    (∀ (f : Option String) (d p dt : String),
      keyTotal d p dt (exportOp f []).1 = keyTotal d p dt []) ∧
    (∀ d p dt : String,
      keyTotal d p dt (storeOf (ensureSchema (.aggTable []))) =
        keyTotal d p dt [])) :=
  ⟨Reachable.fresh, reachable_store_invariants [] Reachable.fresh⟩

end PixelPageCount
